import Mathlib

/-!
Verification of the timed test-session lifecycle and scoring state machine of
the Programming-Contest-App repository.  The definitions below are a shallow
embedding of the Python source: question-set assignment
(student_dashboard.get_unused_problem_set), session creation
(student_dashboard.register_student, show_dashboard and start_test), test
submission (student_dashboard.submit_test), lazy deadline expiry
(student_dashboard.show_test) and the re-grading pass
(admin_dashboard.revaluate_coding_submissions).  Timestamps are modelled as
integer seconds; a timedelta of m minutes is 60 * m.  The MongoDB collection
of test sessions is modelled as a list of documents, and update_one as an
update of the first document matching the filter.
-/

/-- Identity of a question inside question_attempts: MCQ attempts carry the
integer loop index, the coding attempt carries a sentinel string id. -/
inductive QId where
  | idx (i : Nat)
  | name (s : String)
  deriving DecidableEq, Repr

/-- Mirrors the isinstance int test used by the re-grading pass to pick out
MCQ attempts. -/
def QId.isInt : QId → Bool
  | .idx _ => true
  | .name _ => false

/-- The sentinel question id of the coding attempt. -/
def codingId : QId := QId.name "coding_1"

/-- A generated multiple-choice question. -/
structure MCQ where
  question_text : String
  options : List String
  correct_answer : String
  deriving DecidableEq, Repr

/-- A generated coding question. -/
structure CodingQ where
  problem_statement : String
  sample_input : String
  sample_output : String
  deriving DecidableEq, Repr

/-- The sub-score record attached to a graded coding attempt.  The source
field syntax_score is rendered here as syn_score. -/
structure CodingBreakdown where
  attempt_score : Int
  syn_score : Int
  logic_score : Int
  explanation : String
  deriving DecidableEq, Repr

/-- One entry of question_attempts.  Fields that a given attempt kind does
not carry in the Python document are modelled as none. -/
structure Attempt where
  question_id : QId
  question_text : String
  student_answer : Option String
  correct_answer : Option String
  sample_input : Option String
  sample_output : Option String
  is_correct : Option Bool
  marks_obtained : Int
  coding_breakdown : Option CodingBreakdown
  deriving DecidableEq, Repr

/-- A TestSession document.  The answers field is the raw saved answer map
that submit_test also persists. -/
structure TestSession where
  student_id : String
  problem_set_id : Option String
  start_time : Int
  end_time : Int
  is_completed : Bool
  total_score : Int
  question_attempts : List Attempt
  answers : List (String × String)
  deriving DecidableEq, Repr

/-- Python answers.get applied to the saved answer map: the value of the
first binding of the key, if any. -/
def lookupAnswer (answers : List (String × String)) (key : String) : Option String :=
  (answers.find? (fun p => decide (p.1 = key))).map Prod.snd

/-- The MCQ attempt record built by submit_test for question index i.  The
saved answer is compared for equality with the correct answer; a missing
answer (none) is never equal to the correct answer string. -/
def mcqAttempt (answers : List (String × String)) (i : Nat) (mcq : MCQ) : Attempt :=
  let answer := lookupAnswer answers ("mcq_" ++ toString i)
  let correct := decide (answer = some mcq.correct_answer)
  { question_id := QId.idx i
    question_text := mcq.question_text
    student_answer := answer
    correct_answer := some mcq.correct_answer
    sample_input := none
    sample_output := none
    is_correct := some correct
    marks_obtained := if correct then 1 else 0
    coding_breakdown := none }

/-- The ungraded coding attempt appended by submit_test. -/
def codingAttempt (q : CodingQ) (code : String) : Attempt :=
  { question_id := codingId
    question_text := q.problem_statement
    student_answer := some code
    correct_answer := none
    sample_input := some q.sample_input
    sample_output := some q.sample_output
    is_correct := none
    marks_obtained := 0
    coding_breakdown := none }

/-- The question_attempts list materialized by submit_test: one attempt per
MCQ in order, followed by the coding attempt, which is appended only when the
session-state coding question list is nonempty.  The saved code text defaults
to the empty string. -/
def submitAttempts (mcqs : List MCQ) (coding : List CodingQ)
    (answers : List (String × String)) : List Attempt :=
  let mcqAtts := mcqs.enum.map (fun p => mcqAttempt answers p.1 p.2)
  match coding with
  | [] => mcqAtts
  | q :: _ => mcqAtts ++ [codingAttempt q ((lookupAnswer answers "coding").getD "")]

/-- The total_score accumulated by the MCQ grading loop of submit_test: one
mark per correct MCQ, nothing for the ungraded coding attempt. -/
def submitScore (mcqs : List MCQ) (answers : List (String × String)) : Int :=
  (mcqs.enum.map (fun p => (mcqAttempt answers p.1 p.2).marks_obtained)).sum

/-- Model of collection.update_one: rewrite the first document matching the
filter with f and report how many documents matched. -/
def mongoUpdateOne (p : TestSession → Bool) (f : TestSession → TestSession) :
    List TestSession → List TestSession × Nat
  | [] => ([], 0)
  | s :: rest =>
    if p s then (f s :: rest, 1)
    else
      let r := mongoUpdateOne p f rest
      (s :: r.1, r.2)

/-- The filter used by submit_test and the session lookups: the session
belongs to the student and is not completed. -/
def activeFor (sid : String) (s : TestSession) : Bool :=
  decide (s.student_id = sid) && !s.is_completed

/-- The update document of submit_test: mark completed, stamp end_time with
the submission time, store the computed score, attempts and raw answers. -/
def submitUpdate (now : Int) (total : Int) (atts : List Attempt)
    (answers : List (String × String)) (s : TestSession) : TestSession :=
  { s with is_completed := true, end_time := now, total_score := total,
           question_attempts := atts, answers := answers }

/-- student_dashboard.submit_test: grade the MCQs against the saved answers,
append the coding attempt, and complete the active session with a conditional
update.  Returns the new store and the score, or none when the conditional
update matched no document (the submission-failure report). -/
def submit_test (store : List TestSession) (sid : String) (mcqs : List MCQ)
    (coding : List CodingQ) (answers : List (String × String)) (now : Int) :
    List TestSession × Option Int :=
  let total := submitScore mcqs answers
  let atts := submitAttempts mcqs coding answers
  let u := mongoUpdateOne (activeFor sid) (submitUpdate now total atts answers) store
  (u.1, if u.2 = 0 then none else some total)

/-- The session document as rewritten by a successful submit_test call: the
completion update applied to the previously active session. -/
def submittedSession (mcqs : List MCQ) (coding : List CodingQ)
    (answers : List (String × String)) (now : Int) (s : TestSession) : TestSession :=
  submitUpdate now (submitScore mcqs answers)
    (submitAttempts mcqs coding answers) answers s

/-- The contest-settings read: duration_minutes of the contest_settings
document, defaulting to 60 when the document or the field is absent. -/
def getContestDuration (settings : Option Int) : Int :=
  settings.getD 60

/-- start_test session creation: end_time is start_time plus the configured
contest duration, read from settings at creation time. -/
def startTestSession (settings : Option Int) (sid psid : String) (now : Int) :
    TestSession :=
  { student_id := sid
    problem_set_id := some psid
    start_time := now
    end_time := now + 60 * getContestDuration settings
    is_completed := false
    total_score := 0
    question_attempts := []
    answers := [] }

/-- show_dashboard start-button session creation: end_time is hardcoded to
start_time plus 30 minutes, without consulting contest settings. -/
def dashboardStartSession (sid psid : String) (now : Int) : TestSession :=
  { student_id := sid
    problem_set_id := some psid
    start_time := now
    end_time := now + 60 * 30
    is_completed := false
    total_score := 0
    question_attempts := []
    answers := [] }

/-- register_student session creation: end_time is hardcoded to start_time
plus 40 minutes, without consulting contest settings. -/
def registerSession (sid psid : String) (now : Int) : TestSession :=
  { student_id := sid
    problem_set_id := some psid
    start_time := now
    end_time := now + 60 * 40
    is_completed := false
    total_score := 0
    question_attempts := []
    answers := [] }

/-- A parsed evaluator response for the coding attempt.  The source field
syntax_score is rendered here as syn_score. -/
structure Evaluation where
  attempt_score : Int
  syn_score : Int
  logic_score : Int
  explanation : String
  deriving DecidableEq, Repr

/-- The in-place update revaluate_coding_submissions performs on the coding
attempt from an evaluator response: marks become the plain sum of the three
sub-scores, is_correct their positivity, and the breakdown is recorded.  No
bound check is performed on the sub-scores. -/
def applyEvaluation (e : Evaluation) (a : Attempt) : Attempt :=
  let score := e.attempt_score + e.syn_score + e.logic_score
  { a with is_correct := some (decide (score > 0))
           marks_obtained := score
           coding_breakdown := some
             { attempt_score := e.attempt_score
               syn_score := e.syn_score
               logic_score := e.logic_score
               explanation := e.explanation } }

/-- ASCII whitespace, as stripped by the Python str.strip call of the
re-grading pass. -/
def isSpaceChar (c : Char) : Bool :=
  c = ' ' || c = '\t' || c = '\n' || c = '\r'

/-- Python str.strip with no argument: whitespace removed from both ends. -/
def pyStrip (s : String) : String :=
  String.mk (((s.data.dropWhile isSpaceChar).reverse.dropWhile isSpaceChar).reverse)

/-- Per-attempt step of the re-grading pass: an empty (after strip) code
answer is scored with all-zero sub-scores; otherwise the evaluator response
is applied as is, and a missing or unparseable response (none) leaves the
attempt untouched. -/
def gradeCodingAttempt (ev : Option Evaluation) (a : Attempt) : Attempt :=
  let code := pyStrip (a.student_answer.getD "")
  if code = "" then
    applyEvaluation
      { attempt_score := 0, syn_score := 0, logic_score := 0,
        explanation := "No code was submitted for evaluation." } a
  else
    match ev with
    | some e => applyEvaluation e a
    | none => a

/-- The test picking out the coding attempt by its sentinel id. -/
def isCodingAttempt (a : Attempt) : Bool :=
  decide (a.question_id = codingId)

/-- Rewrite the first coding attempt of the list with f, as the in-place
dict update of the Python pass does. -/
def updateFirstCoding (f : Attempt → Attempt) : List Attempt → List Attempt
  | [] => []
  | a :: rest =>
    if isCodingAttempt a then f a :: rest else a :: updateFirstCoding f rest

/-- The MCQ part of the recomputed total: marks of the attempts whose
question_id is an integer. -/
def mcqMarks (atts : List Attempt) : Int :=
  ((atts.filter (fun a => QId.isInt a.question_id)).map
    (fun a => a.marks_obtained)).sum

/-- The marks of the first coding attempt, 0 when there is none. -/
def firstCodingMarks (atts : List Attempt) : Int :=
  match atts.find? isCodingAttempt with
  | some a => a.marks_obtained
  | none => 0

/-- One session step of admin_dashboard.revaluate_coding_submissions, with
the evaluator response supplied as an argument.  A session without a coding
attempt is left untouched; otherwise the coding attempt is re-graded in place
and total_score is recomputed from scratch as the MCQ marks of the updated
attempt list plus the new coding marks. -/
def regradeSession (ev : Option Evaluation) (s : TestSession) : TestSession :=
  match s.question_attempts.find? isCodingAttempt with
  | none => s
  | some _ =>
    let atts := updateFirstCoding (gradeCodingAttempt ev) s.question_attempts
    { s with question_attempts := atts
             total_score := mcqMarks atts + firstCodingMarks atts }

/-- The deadline show_test actually enforces: start_time plus the currently
configured duration, recomputed from settings at observation time.  The
stored end_time of the session is not consulted. -/
def effectiveEnd (settings : Option Int) (s : TestSession) : Int :=
  s.start_time + 60 * getContestDuration settings

/-- The lazy expiry check of show_test: find the active session of the
student; when the remaining time is not positive, auto-submit with the
currently saved answers, otherwise leave the store as is. -/
def observeTest (settings : Option Int) (now : Int) (store : List TestSession)
    (sid : String) (mcqs : List MCQ) (coding : List CodingQ)
    (answers : List (String × String)) : List TestSession :=
  match store.find? (activeFor sid) with
  | none => store
  | some s =>
    if effectiveEnd settings s - now ≤ 0 then
      (submit_test store sid mcqs coding answers now).1
    else store

/-- An MCQ question-set document, reduced to the fields that question-set
assignment consults. -/
structure QSet where
  id : String
  generated_questions : List MCQ
  deriving DecidableEq, Repr

/-- The problem_set_id values of all test sessions that carry one. -/
def usedSetIds (sessions : List (Option String)) : List String :=
  sessions.filterMap (fun x => x)

/-- How often a set id appears as problem_set_id across all sessions. -/
def usageCount (sessions : List (Option String)) (i : String) : Nat :=
  (usedSetIds sessions).count i

/-- The minimum-usage scan of get_unused_problem_set: walk the sets keeping
the current best, replacing it exactly when a strictly smaller usage count is
seen. -/
def leastUsedFrom (u : String → Nat) (best : QSet) (bestU : Nat) :
    List QSet → QSet
  | [] => best
  | q :: rest =>
    if u q.id < bestU then leastUsedFrom u q (u q.id) rest
    else leastUsedFrom u best bestU rest

/-- student_dashboard.get_unused_problem_set: none when there are no MCQ
sets; otherwise the first set whose id appears in no session, and when every
set has been used, the least-used set found by the scan. -/
def get_unused_problem_set (sets : List QSet) (sessions : List (Option String)) :
    Option QSet :=
  match sets with
  | [] => none
  | q0 :: rest =>
    match (q0 :: rest).find? (fun q => !(usedSetIds sessions).contains q.id) with
    | some q => some q
    | none =>
      some (leastUsedFrom (usageCount sessions) q0 (usageCount sessions q0.id) rest)

/-- The sum of marks_obtained over an attempt list, the quantity the
total_score invariant is stated against. -/
def attemptsSum (atts : List Attempt) : Int :=
  (atts.map (fun a => a.marks_obtained)).sum

/-- The marks of the coding attempts of the list, summed. -/
def codingMarksSum (atts : List Attempt) : Int :=
  attemptsSum (atts.filter isCodingAttempt)

/-- The shape every session written by submit_test has: total_score equals
the attempts sum, every attempt is an MCQ attempt or the coding attempt, and
there is at most one coding attempt. -/
def scoreInv (s : TestSession) : Prop :=
  s.total_score = attemptsSum s.question_attempts ∧
  (∀ a ∈ s.question_attempts,
    QId.isInt a.question_id = true ∨ a.question_id = codingId) ∧
  s.question_attempts.countP isCodingAttempt ≤ 1

/-- Fixture: a three-question MCQ list whose correct answers are b, d, a. -/
def fixtureMcqs : List MCQ :=
  [ { question_text := "q one", options := ["a", "b", "c", "d"], correct_answer := "b" },
    { question_text := "q two", options := ["a", "b", "c", "d"], correct_answer := "d" },
    { question_text := "q three", options := ["a", "b", "c", "d"], correct_answer := "a" } ]

/-- Fixture: a coding question. -/
def fixtureCodingQ : CodingQ :=
  { problem_statement := "sum two numbers",
    sample_input := "1 2",
    sample_output := "3" }

/-- Fixture: a saved answer map answering all three MCQs correctly and
saving some code text. -/
def fixtureAnswers : List (String × String) :=
  [("mcq_0", "b"), ("mcq_1", "d"), ("mcq_2", "a"), ("coding", "print(1)")]

/-- Fixture: a fresh active session for student s1. -/
def fixtureActive : TestSession :=
  { student_id := "s1"
    problem_set_id := some "p1"
    start_time := 0
    end_time := 3600
    is_completed := false
    total_score := 0
    question_attempts := []
    answers := [] }

/-- Fixture: the session fixtureActive right after submitting fixtureAnswers
on fixtureMcqs and fixtureCodingQ at time 900: MCQ score 3 and an ungraded
coding placeholder. -/
def fixtureSubmitted : TestSession :=
  submitUpdate 900 (submitScore fixtureMcqs fixtureAnswers)
    (submitAttempts fixtureMcqs [fixtureCodingQ] fixtureAnswers)
    fixtureAnswers fixtureActive

/-- Fixture: the MCQ attempts of fixtureSubmitted. -/
def fixturePre : List Attempt :=
  fixtureMcqs.enum.map (fun p => mcqAttempt fixtureAnswers p.1 p.2)

/-- Fixture: the ungraded coding attempt of fixtureSubmitted. -/
def fixtureCodingAtt : Attempt :=
  codingAttempt fixtureCodingQ "print(1)"

theorem attemptsSum_append (l1 l2 : List Attempt) :
    attemptsSum (l1 ++ l2) = attemptsSum l1 + attemptsSum l2 := by
  simp [attemptsSum]

theorem mcqMarks_append (l1 l2 : List Attempt) :
    mcqMarks (l1 ++ l2) = mcqMarks l1 + mcqMarks l2 := by
  simp [mcqMarks]

theorem not_coding_of_isInt (a : Attempt) (h : QId.isInt a.question_id = true) :
    isCodingAttempt a = false := by
  unfold isCodingAttempt codingId
  cases hq : a.question_id with
  | idx i => simp
  | name s => rw [hq] at h; simp [QId.isInt] at h

theorem not_isInt_of_coding (a : Attempt) (h : isCodingAttempt a = true) :
    QId.isInt a.question_id = false := by
  unfold isCodingAttempt codingId at h
  have : a.question_id = QId.name "coding_1" := by simpa using h
  simp [this, QId.isInt]

theorem gradeCodingAttempt_question_id (ev : Option Evaluation) (a : Attempt) :
    (gradeCodingAttempt ev a).question_id = a.question_id := by
  unfold gradeCodingAttempt
  by_cases h : pyStrip (a.student_answer.getD "") = ""
  · simp [h, applyEvaluation]
  · cases ev <;> simp [h, applyEvaluation]

theorem isCodingAttempt_grade (ev : Option Evaluation) (a : Attempt) :
    isCodingAttempt (gradeCodingAttempt ev a) = isCodingAttempt a := by
  unfold isCodingAttempt
  rw [gradeCodingAttempt_question_id]

theorem updateFirstCoding_countP (ev : Option Evaluation) (l : List Attempt) :
    (updateFirstCoding (gradeCodingAttempt ev) l).countP isCodingAttempt =
      l.countP isCodingAttempt := by
  induction l with
  | nil => rfl
  | cons a rest ih =>
    unfold updateFirstCoding
    by_cases h : isCodingAttempt a = true
    · simp [h, List.countP_cons, isCodingAttempt_grade]
    · simp only [Bool.not_eq_true] at h
      simp [h, List.countP_cons, ih]

theorem updateFirstCoding_shape (ev : Option Evaluation) (l : List Attempt) :
    ∀ b ∈ updateFirstCoding (gradeCodingAttempt ev) l,
      ∃ a ∈ l, b.question_id = a.question_id := by
  induction l with
  | nil => intro b hb; simp [updateFirstCoding] at hb
  | cons a rest ih =>
    intro b hb
    cases h : isCodingAttempt a with
    | true =>
      simp only [updateFirstCoding, h, if_true, List.mem_cons] at hb
      rcases hb with hb | hb
      · exact ⟨a, List.mem_cons_self a rest, by rw [hb, gradeCodingAttempt_question_id]⟩
      · exact ⟨b, List.mem_cons_of_mem a hb, rfl⟩
    | false =>
      simp only [updateFirstCoding, h, Bool.false_eq_true, if_false, List.mem_cons] at hb
      rcases hb with hb | hb
      · exact ⟨a, List.mem_cons_self a rest, by rw [hb]⟩
      · rcases ih b hb with ⟨x, hx, hqx⟩
        exact ⟨x, List.mem_cons_of_mem a hx, hqx⟩

theorem updateFirstCoding_mcqMarks (ev : Option Evaluation) (l : List Attempt) :
    mcqMarks (updateFirstCoding (gradeCodingAttempt ev) l) = mcqMarks l := by
  induction l with
  | nil => rfl
  | cons a rest ih =>
    unfold updateFirstCoding
    by_cases h : isCodingAttempt a = true
    · have h1 : QId.isInt (gradeCodingAttempt ev a).question_id = false := by
        rw [gradeCodingAttempt_question_id]
        exact not_isInt_of_coding a h
      have h2 : QId.isInt a.question_id = false := not_isInt_of_coding a h
      simp [h, mcqMarks, List.filter_cons, h1, h2]
    · simp only [Bool.not_eq_true] at h
      by_cases hi : QId.isInt a.question_id = true
      · simp [h, mcqMarks, List.filter_cons, hi] at ih ⊢
        omega
      · simp only [Bool.not_eq_true] at hi
        simp [h, mcqMarks, List.filter_cons, hi] at ih ⊢
        exact ih

theorem updateFirstCoding_append (f : Attempt → Attempt) (pre rest : List Attempt)
    (hpre : ∀ a ∈ pre, isCodingAttempt a = false) :
    updateFirstCoding f (pre ++ rest) = pre ++ updateFirstCoding f rest := by
  induction pre with
  | nil => rfl
  | cons a t ih =>
    have ha := hpre a (List.mem_cons_self a t)
    have iht := ih (fun x hx => hpre x (List.mem_cons_of_mem a hx))
    simp only [List.cons_append, updateFirstCoding, ha, Bool.false_eq_true, if_false,
      List.cons.injEq]
    simp [iht]

theorem attemptsSum_split (l : List Attempt)
    (h : ∀ a ∈ l, QId.isInt a.question_id = true ∨ a.question_id = codingId) :
    attemptsSum l = mcqMarks l + codingMarksSum l := by
  induction l with
  | nil => simp [attemptsSum, mcqMarks, codingMarksSum]
  | cons a rest ih =>
    have hrest : ∀ b ∈ rest, QId.isInt b.question_id = true ∨ b.question_id = codingId :=
      fun b hb => h b (List.mem_cons_of_mem a hb)
    have ihr := ih hrest
    rcases h a (List.mem_cons_self a rest) with h1 | h1
    · have hnc : isCodingAttempt a = false := not_coding_of_isInt a h1
      simp [attemptsSum, mcqMarks, codingMarksSum, List.filter_cons, h1, hnc] at ihr ⊢
      omega
    · have hc : isCodingAttempt a = true := by simp [isCodingAttempt, h1]
      have hni : QId.isInt a.question_id = false := not_isInt_of_coding a hc
      simp [attemptsSum, mcqMarks, codingMarksSum, List.filter_cons, hc, hni] at ihr ⊢
      omega

theorem codingMarksSum_eq_first (l : List Attempt)
    (h : l.countP isCodingAttempt ≤ 1) :
    codingMarksSum l = firstCodingMarks l := by
  induction l with
  | nil => rfl
  | cons a rest ih =>
    by_cases hc : isCodingAttempt a = true
    · have hzero : rest.countP isCodingAttempt = 0 := by
        rw [List.countP_cons, if_pos hc] at h
        omega
      have hfilter : rest.filter isCodingAttempt = [] := by
        rw [List.filter_eq_nil_iff]
        intro x hx
        have := List.countP_eq_zero.1 hzero x hx
        simp [this]
      simp [codingMarksSum, firstCodingMarks, List.find?_cons, hc, List.filter_cons,
        hfilter, attemptsSum]
    · simp only [Bool.not_eq_true] at hc
      have hrest : rest.countP isCodingAttempt ≤ 1 := by
        rw [List.countP_cons, hc] at h
        omega
      have := ih hrest
      simp [codingMarksSum, firstCodingMarks, List.find?_cons, hc, List.filter_cons] at this ⊢
      exact this

theorem mcqAtts_qid (mcqs : List MCQ) (answers : List (String × String)) :
    ∀ b ∈ mcqs.enum.map (fun p => mcqAttempt answers p.1 p.2),
      ∃ i, b.question_id = QId.idx i := by
  intro b hb
  rcases List.mem_map.1 hb with ⟨p, _, rfl⟩
  exact ⟨p.1, rfl⟩

theorem mcqAtts_not_coding (mcqs : List MCQ) (answers : List (String × String)) :
    ∀ b ∈ mcqs.enum.map (fun p => mcqAttempt answers p.1 p.2),
      isCodingAttempt b = false := by
  intro b hb
  rcases mcqAtts_qid mcqs answers b hb with ⟨i, hi⟩
  apply not_coding_of_isInt
  rw [hi]
  rfl

theorem submitAttempts_shape (mcqs : List MCQ) (coding : List CodingQ)
    (answers : List (String × String)) :
    ∀ a ∈ submitAttempts mcqs coding answers,
      QId.isInt a.question_id = true ∨ a.question_id = codingId := by
  intro a ha
  cases coding with
  | nil =>
    rcases mcqAtts_qid mcqs answers a ha with ⟨i, hi⟩
    left
    rw [hi]
    rfl
  | cons q cs =>
    simp only [submitAttempts, List.mem_append, List.mem_singleton] at ha
    rcases ha with ha | ha
    · rcases mcqAtts_qid mcqs answers a ha with ⟨i, hi⟩
      left
      rw [hi]
      rfl
    · right
      rw [ha]
      rfl

theorem submitAttempts_countP (mcqs : List MCQ) (coding : List CodingQ)
    (answers : List (String × String)) :
    (submitAttempts mcqs coding answers).countP isCodingAttempt ≤ 1 := by
  cases coding with
  | nil =>
    have h : (mcqs.enum.map (fun p => mcqAttempt answers p.1 p.2)).countP isCodingAttempt
        = 0 :=
      List.countP_eq_zero.2 (fun b hb => by simp [mcqAtts_not_coding mcqs answers b hb])
    simp [submitAttempts, h]
  | cons q cs =>
    have h : (mcqs.enum.map (fun p => mcqAttempt answers p.1 p.2)).countP isCodingAttempt
        = 0 :=
      List.countP_eq_zero.2 (fun b hb => by simp [mcqAtts_not_coding mcqs answers b hb])
    simp [submitAttempts, List.countP_append, h, List.countP_cons, isCodingAttempt,
      codingAttempt]

theorem submitScore_eq (mcqs : List MCQ) (coding : List CodingQ)
    (answers : List (String × String)) :
    submitScore mcqs answers = attemptsSum (submitAttempts mcqs coding answers) := by
  cases coding with
  | nil =>
    simp only [submitScore, submitAttempts, attemptsSum, List.map_map]
    rfl
  | cons q cs =>
    simp only [submitScore, submitAttempts, attemptsSum, List.map_append,
      List.map_map, List.sum_append, List.map_cons, List.map_nil, codingAttempt,
      List.sum_cons, List.sum_nil, Int.add_zero]
    rfl

theorem scoreInv_submit (mcqs : List MCQ) (coding : List CodingQ)
    (answers : List (String × String)) (now : Int) (s : TestSession) :
    scoreInv (submitUpdate now (submitScore mcqs answers)
      (submitAttempts mcqs coding answers) answers s) := by
  refine ⟨?_, ?_, ?_⟩
  · exact submitScore_eq mcqs coding answers
  · exact submitAttempts_shape mcqs coding answers
  · exact submitAttempts_countP mcqs coding answers

theorem scoreInv_regrade (ev : Option Evaluation) (s : TestSession)
    (h : scoreInv s) : scoreInv (regradeSession ev s) := by
  obtain ⟨htot, hshape, hcount⟩ := h
  unfold regradeSession
  cases hf : s.question_attempts.find? isCodingAttempt with
  | none => exact ⟨htot, hshape, hcount⟩
  | some c =>
    have hshape2 : ∀ b ∈ updateFirstCoding (gradeCodingAttempt ev) s.question_attempts,
        QId.isInt b.question_id = true ∨ b.question_id = codingId := by
      intro b hb
      rcases updateFirstCoding_shape ev s.question_attempts b hb with ⟨a, ha, hq⟩
      rcases hshape a ha with h1 | h1
      · left; rw [hq]; exact h1
      · right; rw [hq]; exact h1
    have hcount2 : (updateFirstCoding (gradeCodingAttempt ev)
        s.question_attempts).countP isCodingAttempt ≤ 1 := by
      rw [updateFirstCoding_countP]
      exact hcount
    refine ⟨?_, hshape2, hcount2⟩
    rw [attemptsSum_split _ hshape2, codingMarksSum_eq_first _ hcount2]

theorem scoreInv_foldl (evs : List (Option Evaluation)) (s : TestSession)
    (h : scoreInv s) :
    scoreInv (evs.foldl (fun t e => regradeSession e t) s) := by
  induction evs generalizing s with
  | nil => exact h
  | cons e rest ih => exact ih _ (scoreInv_regrade e s h)

theorem mongoUpdateOne_of_countP_zero (p : TestSession → Bool)
    (f : TestSession → TestSession) (l : List TestSession) (h : l.countP p = 0) :
    mongoUpdateOne p f l = (l, 0) := by
  induction l with
  | nil => rfl
  | cons s rest ih =>
    have hs : p s = false := by
      have := List.countP_eq_zero.1 h s (List.mem_cons_self s rest)
      simpa using this
    have hr : rest.countP p = 0 :=
      List.countP_eq_zero.2 (fun b hb => by
        have := List.countP_eq_zero.1 h b (List.mem_cons_of_mem s hb)
        simpa using this)
    simp [mongoUpdateOne, hs, ih hr]

theorem mongoUpdateOne_matched (p : TestSession → Bool)
    (f : TestSession → TestSession) (l : List TestSession) (h : 0 < l.countP p) :
    (mongoUpdateOne p f l).2 = 1 := by
  induction l with
  | nil => simp at h
  | cons s rest ih =>
    cases hs : p s with
    | true => simp [mongoUpdateOne, hs]
    | false =>
      rw [List.countP_cons, hs] at h
      simp only [Bool.false_eq_true, if_false, Nat.add_zero] at h
      simp [mongoUpdateOne, hs, ih h]

theorem mongoUpdateOne_countP_after (p : TestSession → Bool)
    (f : TestSession → TestSession) (l : List TestSession)
    (hf : ∀ s, p (f s) = false) (h : l.countP p = 1) :
    (mongoUpdateOne p f l).1.countP p = 0 := by
  induction l with
  | nil => rfl
  | cons s rest ih =>
    cases hs : p s with
    | true =>
      have hr : rest.countP p = 0 := by
        rw [List.countP_cons, if_pos hs] at h
        omega
      simp [mongoUpdateOne, hs, List.countP_cons, hf, hr]
    | false =>
      rw [List.countP_cons, hs] at h
      simp only [Bool.false_eq_true, if_false, Nat.add_zero] at h
      simp [mongoUpdateOne, hs, List.countP_cons, ih h]

theorem mongoUpdateOne_mem_updated (p : TestSession → Bool)
    (f : TestSession → TestSession) (l : List TestSession) (h : 0 < l.countP p) :
    ∃ a ∈ l, p a = true ∧ f a ∈ (mongoUpdateOne p f l).1 := by
  induction l with
  | nil => simp at h
  | cons s rest ih =>
    cases hs : p s with
    | true =>
      refine ⟨s, List.mem_cons_self s rest, hs, ?_⟩
      simp [mongoUpdateOne, hs]
    | false =>
      rw [List.countP_cons, hs] at h
      simp only [Bool.false_eq_true, if_false, Nat.add_zero] at h
      rcases ih h with ⟨a, ha, hpa, hmem⟩
      refine ⟨a, List.mem_cons_of_mem s ha, hpa, ?_⟩
      simp [mongoUpdateOne, hs, hmem]

theorem activeFor_submitUpdate_false (sid : String) (now total : Int)
    (atts : List Attempt) (answers : List (String × String)) (s : TestSession) :
    activeFor sid (submitUpdate now total atts answers s) = false := by
  simp [activeFor, submitUpdate]

/-- C1: for every completed TestSession — any session written by submit_test
and then re-graded any number of times by revaluate_coding_submissions — the
stored total_score equals the sum of marks_obtained over the entries of
question_attempts. -/
theorem c1_total_score_recomputable (mcqs : List MCQ) (coding : List CodingQ)
    (answers : List (String × String)) (now : Int) (s : TestSession)
    (evs : List (Option Evaluation)) :
    (evs.foldl (fun t e => regradeSession e t)
      (submitUpdate now (submitScore mcqs answers)
        (submitAttempts mcqs coding answers) answers s)).total_score =
    attemptsSum ((evs.foldl (fun t e => regradeSession e t)
      (submitUpdate now (submitScore mcqs answers)
        (submitAttempts mcqs coding answers) answers s)).question_attempts) :=
  (scoreInv_foldl evs _ (scoreInv_submit mcqs coding answers now s)).1

/-- C2: when the store holds exactly one active session of the student, the
first of two successive submit calls performs the completion transition and
reports the score, while the second matches zero documents, is reported as a
submission failure (none), and leaves the store untouched. -/
theorem c2_double_submit_conflict (store : List TestSession) (sid : String)
    (mcqs : List MCQ) (coding : List CodingQ) (answers : List (String × String))
    (now1 now2 : Int) (h : store.countP (activeFor sid) = 1) :
    (submit_test store sid mcqs coding answers now1).2 =
        some (submitScore mcqs answers) ∧
    (submit_test (submit_test store sid mcqs coding answers now1).1 sid mcqs
        coding answers now2).2 = none ∧
    (submit_test (submit_test store sid mcqs coding answers now1).1 sid mcqs
        coding answers now2).1 = (submit_test store sid mcqs coding answers now1).1 := by
  have hpos : 0 < store.countP (activeFor sid) := by omega
  have h1 := mongoUpdateOne_matched (activeFor sid)
    (submitUpdate now1 (submitScore mcqs answers)
      (submitAttempts mcqs coding answers) answers) store hpos
  have h2 := mongoUpdateOne_countP_after (activeFor sid)
    (submitUpdate now1 (submitScore mcqs answers)
      (submitAttempts mcqs coding answers) answers) store
    (fun s => activeFor_submitUpdate_false sid now1 _ _ _ s) h
  have h3 := mongoUpdateOne_of_countP_zero (activeFor sid)
    (submitUpdate now2 (submitScore mcqs answers)
      (submitAttempts mcqs coding answers) answers) _ h2
  refine ⟨?_, ?_, ?_⟩
  · simp [submit_test, h1]
  · simp [submit_test, h3]
  · simp [submit_test, h3]

/-- Witness for C2 at a concrete store holding one active session. -/
theorem c2_double_submit_conflict_witness :
    ([fixtureActive].countP (activeFor "s1") = 1) ∧
    ((submit_test [fixtureActive] "s1" fixtureMcqs [fixtureCodingQ]
        fixtureAnswers 900).2 = some (submitScore fixtureMcqs fixtureAnswers) ∧
     (submit_test (submit_test [fixtureActive] "s1" fixtureMcqs [fixtureCodingQ]
        fixtureAnswers 900).1 "s1" fixtureMcqs [fixtureCodingQ]
        fixtureAnswers 1000).2 = none ∧
     (submit_test (submit_test [fixtureActive] "s1" fixtureMcqs [fixtureCodingQ]
        fixtureAnswers 900).1 "s1" fixtureMcqs [fixtureCodingQ]
        fixtureAnswers 1000).1 =
       (submit_test [fixtureActive] "s1" fixtureMcqs [fixtureCodingQ]
        fixtureAnswers 900).1) :=
  ⟨by decide, c2_double_submit_conflict [fixtureActive] "s1" fixtureMcqs
    [fixtureCodingQ] fixtureAnswers 900 1000 (by decide)⟩

theorem submitAttempts_get_mcq (mcqs : List MCQ) (coding : List CodingQ)
    (answers : List (String × String)) (i : Nat) (hi : i < mcqs.length)
    (hj : i < (submitAttempts mcqs coding answers).length) :
    (submitAttempts mcqs coding answers).get ⟨i, hj⟩ =
      mcqAttempt answers i (mcqs.get ⟨i, hi⟩) := by
  cases coding with
  | nil =>
    simp only [submitAttempts] at hj ⊢
    rw [List.get_eq_getElem, List.getElem_map, List.getElem_enum]
    rfl
  | cons q cs =>
    simp only [submitAttempts] at hj ⊢
    rw [List.get_eq_getElem, List.getElem_append_left (by simpa using hi),
      List.getElem_map, List.getElem_enum]
    rfl

/-- C3 counterexample: a submission whose session-state coding question list
is empty (the coding set was never resolved) records no coding attempt at
all, so submit_test does not append a coding attempt for every active session
and answer map. -/
theorem c3_counterexample :
    ¬ ∃ a ∈ submitAttempts
        [ { question_text := "t1", options := ["x", "y", "z", "w"],
            correct_answer := "x" } ]
        [] [("mcq_0", "x")], a.question_id = codingId := by
  decide

/-- C3 (amended): whenever the session-state coding question list is
nonempty, submit_test records for each MCQ an attempt whose is_correct is the
equality of the saved answer with the correct answer and whose marks are 1 if
correct else 0, appends a coding attempt with is_correct null and marks 0
carrying the saved code text (empty string if none was saved), sets
total_score to the sum of marks_obtained, and sets is_completed with end_time
equal to the submission time.  With an empty coding list no coding attempt is
appended. -/
theorem c3_submit_effect (mcqs : List MCQ) (q : CodingQ) (cs : List CodingQ)
    (answers : List (String × String)) (now : Int) (s : TestSession) :
    (submittedSession mcqs (q :: cs) answers now s).is_completed = true ∧
    (submittedSession mcqs (q :: cs) answers now s).end_time = now ∧
    (submittedSession mcqs (q :: cs) answers now s).question_attempts.length =
        mcqs.length + 1 ∧
    (∀ i, (hi : i < mcqs.length) →
      (hj : i < (submittedSession mcqs (q :: cs) answers now s).question_attempts.length) →
      ((submittedSession mcqs (q :: cs) answers now s).question_attempts.get
          ⟨i, hj⟩).question_id = QId.idx i ∧
      ((submittedSession mcqs (q :: cs) answers now s).question_attempts.get
          ⟨i, hj⟩).student_answer = lookupAnswer answers ("mcq_" ++ toString i) ∧
      ((submittedSession mcqs (q :: cs) answers now s).question_attempts.get
          ⟨i, hj⟩).is_correct = some (decide (lookupAnswer answers ("mcq_" ++ toString i) =
            some (mcqs.get ⟨i, hi⟩).correct_answer)) ∧
      ((submittedSession mcqs (q :: cs) answers now s).question_attempts.get
          ⟨i, hj⟩).marks_obtained = (if lookupAnswer answers ("mcq_" ++ toString i) =
            some (mcqs.get ⟨i, hi⟩).correct_answer then 1 else 0)) ∧
    (∃ c, (submittedSession mcqs (q :: cs) answers now s).question_attempts.getLast? =
        some c ∧ c.question_id = codingId ∧ c.is_correct = none ∧
        c.marks_obtained = 0 ∧
        c.student_answer = some ((lookupAnswer answers "coding").getD "")) ∧
    (submittedSession mcqs (q :: cs) answers now s).total_score =
      attemptsSum (submittedSession mcqs (q :: cs) answers now s).question_attempts := by
  refine ⟨rfl, rfl, ?_, ?_, ?_, ?_⟩
  · simp [submittedSession, submitUpdate, submitAttempts]
  · intro i hi hj
    have hg := submitAttempts_get_mcq mcqs (q :: cs) answers i hi hj
    refine ⟨?_, ?_, ?_, ?_⟩
    · exact congrArg Attempt.question_id hg
    · exact congrArg Attempt.student_answer hg
    · exact congrArg Attempt.is_correct hg
    · show ((submitAttempts mcqs (q :: cs) answers).get ⟨i, hj⟩).marks_obtained = _
      rw [hg]
      simp [mcqAttempt]
  · refine ⟨codingAttempt q ((lookupAnswer answers "coding").getD ""), ?_, rfl, rfl, rfl, rfl⟩
    show (submitAttempts mcqs (q :: cs) answers).getLast? = _
    simp [submitAttempts, List.getLast?_append]
  · exact submitScore_eq mcqs (q :: cs) answers

/-- Witness for C3 at the fixture submission, reading off the first MCQ
attempt. -/
theorem c3_submit_effect_witness :
    (submittedSession fixtureMcqs [fixtureCodingQ] fixtureAnswers 900
        fixtureActive).is_completed = true ∧
    ((0 : Nat) < fixtureMcqs.length) ∧
    ∃ (hj : (0 : Nat) < (submittedSession fixtureMcqs [fixtureCodingQ] fixtureAnswers 900
        fixtureActive).question_attempts.length),
      ((submittedSession fixtureMcqs [fixtureCodingQ] fixtureAnswers 900
          fixtureActive).question_attempts.get ⟨0, hj⟩).question_id = QId.idx 0 ∧
      ((submittedSession fixtureMcqs [fixtureCodingQ] fixtureAnswers 900
          fixtureActive).question_attempts.get ⟨0, hj⟩).student_answer =
        lookupAnswer fixtureAnswers ("mcq_" ++ toString 0) ∧
      ((submittedSession fixtureMcqs [fixtureCodingQ] fixtureAnswers 900
          fixtureActive).question_attempts.get ⟨0, hj⟩).is_correct =
        some (decide (lookupAnswer fixtureAnswers ("mcq_" ++ toString 0) =
          some (fixtureMcqs.get ⟨0, by decide⟩).correct_answer)) ∧
      ((submittedSession fixtureMcqs [fixtureCodingQ] fixtureAnswers 900
          fixtureActive).question_attempts.get ⟨0, hj⟩).marks_obtained =
        (if lookupAnswer fixtureAnswers ("mcq_" ++ toString 0) =
          some (fixtureMcqs.get ⟨0, by decide⟩).correct_answer then 1 else 0) :=
  ⟨(c3_submit_effect fixtureMcqs fixtureCodingQ [] fixtureAnswers 900 fixtureActive).1,
   by decide,
   ⟨by decide, (c3_submit_effect fixtureMcqs fixtureCodingQ [] fixtureAnswers 900
      fixtureActive).2.2.2.1 0 (by decide) (by decide)⟩⟩

/-- C4 counterexample: a submission made while the session-state coding
question list is empty (the question store had no matching coding set) yields
a question_attempts list containing no attempt with the sentinel id, so the
placeholder does not exist after every submission regardless of the question
store. -/
theorem c4_counterexample :
    ¬ ∃ a ∈ submitAttempts
        [ { question_text := "t2", options := ["p", "q", "r", "s"],
            correct_answer := "q" },
          { question_text := "t3", options := ["p", "q", "r", "s"],
            correct_answer := "r" } ]
        [] [], a.question_id = codingId := by
  decide

/-- C4 (amended): after every submission made with a nonempty coding question
list, the session's question_attempts contains an ungraded placeholder coding
attempt identified by the sentinel question_id coding_1 (is_correct null,
marks 0); when the coding set failed to resolve, no placeholder is
recorded. -/
theorem c4_coding_placeholder (mcqs : List MCQ) (q : CodingQ) (cs : List CodingQ)
    (answers : List (String × String)) (now : Int) (s : TestSession) :
    ∃ a ∈ (submittedSession mcqs (q :: cs) answers now s).question_attempts,
      a.question_id = codingId ∧ a.is_correct = none ∧ a.marks_obtained = 0 := by
  refine ⟨codingAttempt q ((lookupAnswer answers "coding").getD ""), ?_, rfl, rfl, rfl⟩
  show codingAttempt _ _ ∈ submitAttempts mcqs (q :: cs) answers
  simp [submitAttempts]

theorem applyEvaluation_question_id (e : Evaluation) (a : Attempt) :
    (applyEvaluation e a).question_id = a.question_id := rfl

theorem find?_coding_append_single (pre : List Attempt) (x : Attempt)
    (hpre : ∀ a ∈ pre, isCodingAttempt a = false) (hx : isCodingAttempt x = true) :
    (pre ++ [x]).find? isCodingAttempt = some x := by
  rw [List.find?_append]
  rw [List.find?_eq_none.2 (fun a ha => by simp [hpre a ha])]
  simp [List.find?_cons, hx]

theorem mcqMarks_single_of_not_int (x : Attempt)
    (h : QId.isInt x.question_id = false) : mcqMarks [x] = 0 := by
  simp [mcqMarks, List.filter_cons, h]

/-- What one re-grading step does to a submitted session of the standard
shape when the evaluator returns the parsed sub-score record e and the stored
code is nonempty after stripping: the coding attempt is rewritten with e and
the total is recomputed from scratch. -/
theorem regradeSession_applied (pre : List Attempt) (c : Attempt) (code : String)
    (e : Evaluation) (s : TestSession)
    (hatts : s.question_attempts = pre ++ [c])
    (hpre : ∀ a ∈ pre, QId.isInt a.question_id = true)
    (hc : c.question_id = codingId)
    (hcode : c.student_answer = some code)
    (hne : pyStrip code ≠ "") :
    regradeSession (some e) s =
      { s with question_attempts := pre ++ [applyEvaluation e c],
               total_score := mcqMarks pre +
                 (e.attempt_score + e.syn_score + e.logic_score) } := by
  have hpreN : ∀ a ∈ pre, isCodingAttempt a = false :=
    fun a ha => not_coding_of_isInt a (hpre a ha)
  have hcA : isCodingAttempt c = true := by simp [isCodingAttempt, hc]
  have hfind : (pre ++ [c]).find? isCodingAttempt = some c :=
    find?_coding_append_single pre c hpreN hcA
  have hgrade : gradeCodingAttempt (some e) c = applyEvaluation e c := by
    unfold gradeCodingAttempt
    rw [hcode]
    simp [hne]
  have hupd : updateFirstCoding (gradeCodingAttempt (some e)) (pre ++ [c]) =
      pre ++ [applyEvaluation e c] := by
    rw [updateFirstCoding_append _ pre [c] hpreN]
    simp [updateFirstCoding, hcA, hgrade]
  have hAeC : isCodingAttempt (applyEvaluation e c) = true := by
    unfold isCodingAttempt
    rw [applyEvaluation_question_id]
    simpa [isCodingAttempt] using hcA
  have hAeInt : QId.isInt (applyEvaluation e c).question_id = false := by
    rw [applyEvaluation_question_id]
    exact not_isInt_of_coding c hcA
  have hmcq : mcqMarks (pre ++ [applyEvaluation e c]) = mcqMarks pre := by
    rw [mcqMarks_append, mcqMarks_single_of_not_int _ hAeInt]
    omega
  have hfirst : firstCodingMarks (pre ++ [applyEvaluation e c]) =
      e.attempt_score + e.syn_score + e.logic_score := by
    unfold firstCodingMarks
    rw [find?_coding_append_single pre _ hpreN hAeC]
    rfl
  unfold regradeSession
  rw [hatts, hfind]
  simp only [hupd, hmcq, hfirst]

/-- C8: a re-grade of a completed session of the standard shape with in-bound
sub-scores sets the coding attempt's marks to the sum of the three
sub-scores, is_correct to the positivity of that sum, and re-derives
total_score from scratch as the session's MCQ marks plus the new coding
marks, whatever the previously stored total was. -/
theorem c8_regrade_recompute (pre : List Attempt) (c : Attempt) (code : String)
    (e : Evaluation) (s : TestSession)
    (hatts : s.question_attempts = pre ++ [c])
    (hpre : ∀ a ∈ pre, QId.isInt a.question_id = true)
    (hc : c.question_id = codingId)
    (hcode : c.student_answer = some code)
    (hne : pyStrip code ≠ "")
    (_hb : 0 ≤ e.attempt_score ∧ e.attempt_score ≤ 1 ∧ 0 ≤ e.syn_score ∧
      e.syn_score ≤ 2 ∧ 0 ≤ e.logic_score ∧ e.logic_score ≤ 2) :
    (∃ a, (regradeSession (some e) s).question_attempts.find? isCodingAttempt =
        some a ∧
      a.marks_obtained = e.attempt_score + e.syn_score + e.logic_score ∧
      a.is_correct =
        some (decide (e.attempt_score + e.syn_score + e.logic_score > 0))) ∧
    (regradeSession (some e) s).total_score =
      mcqMarks s.question_attempts +
        (e.attempt_score + e.syn_score + e.logic_score) := by
  have happ := regradeSession_applied pre c code e s hatts hpre hc hcode hne
  have hpreN : ∀ a ∈ pre, isCodingAttempt a = false :=
    fun a ha => not_coding_of_isInt a (hpre a ha)
  have hcA : isCodingAttempt c = true := by simp [isCodingAttempt, hc]
  have hAeC : isCodingAttempt (applyEvaluation e c) = true := by
    unfold isCodingAttempt
    rw [applyEvaluation_question_id]
    simpa [isCodingAttempt] using hcA
  have hmcqS : mcqMarks s.question_attempts = mcqMarks pre := by
    rw [hatts, mcqMarks_append, mcqMarks_single_of_not_int c (not_isInt_of_coding c hcA)]
    omega
  refine ⟨⟨applyEvaluation e c, ?_, rfl, rfl⟩, ?_⟩
  · rw [happ]
    exact find?_coding_append_single pre _ hpreN hAeC
  · rw [happ, hmcqS]

/-- Witness for C8: the concrete fixture session with MCQ score 3; applying
the grading result with attempt 1, syntax 2, logic 1 yields coding marks 4
and total_score 7. -/
theorem c8_regrade_recompute_witness :
    (fixtureSubmitted.question_attempts = fixturePre ++ [fixtureCodingAtt]) ∧
    mcqMarks fixtureSubmitted.question_attempts = 3 ∧
    firstCodingMarks (regradeSession
        (some { attempt_score := 1, syn_score := 2, logic_score := 1,
                explanation := "good attempt" }) fixtureSubmitted).question_attempts = 4 ∧
    (regradeSession
        (some { attempt_score := 1, syn_score := 2, logic_score := 1,
                explanation := "good attempt" }) fixtureSubmitted).total_score = 7 := by
  have h := c8_regrade_recompute fixturePre fixtureCodingAtt "print(1)"
      { attempt_score := 1, syn_score := 2, logic_score := 1,
        explanation := "good attempt" }
      fixtureSubmitted (by decide) (by decide) rfl rfl (by decide) (by norm_num)
  refine ⟨by decide, by decide, ?_, ?_⟩
  · rcases h.1 with ⟨a, hfind, hmarks, _⟩
    simp only [firstCodingMarks, hfind]
    rw [hmarks]
    decide
  · have hm : mcqMarks fixtureSubmitted.question_attempts = 3 := by decide
    rw [h.2, hm]
    decide

/-- C5 counterexample: a re-grade of the fixture session with the
out-of-bound sub-score attempt 5 is not rejected: the previous coding marks 0
and total 3 are replaced by 5 and 8, so the core does not validate the
evaluator's output. -/
theorem c5_counterexample :
    fixtureSubmitted.total_score = 3 ∧
    firstCodingMarks fixtureSubmitted.question_attempts = 0 ∧
    ((5 : Int) > 1) ∧
    firstCodingMarks (regradeSession
      (some { attempt_score := 5, syn_score := 0,
              logic_score := 0, explanation := "exceeds rubric" })
      fixtureSubmitted).question_attempts = 5 ∧
    (regradeSession
      (some { attempt_score := 5, syn_score := 0, logic_score := 0,
              explanation := "exceeds rubric" })
      fixtureSubmitted).total_score = 8 := by
  decide

/-- C5 (amended): a re-grade whose supplied sub-scores are out of bounds is
applied unchecked: the coding attempt's marks become the plain sum of the
sub-scores, the breakdown records them as given, and total_score is
recomputed with them — previous scores are not retained and no validation is
performed. -/
theorem c5_out_of_bounds_applied (pre : List Attempt) (c : Attempt) (code : String)
    (e : Evaluation) (s : TestSession)
    (hatts : s.question_attempts = pre ++ [c])
    (hpre : ∀ a ∈ pre, QId.isInt a.question_id = true)
    (hc : c.question_id = codingId)
    (hcode : c.student_answer = some code)
    (hne : pyStrip code ≠ "")
    (_hout : ¬ (0 ≤ e.attempt_score ∧ e.attempt_score ≤ 1 ∧ 0 ≤ e.syn_score ∧
      e.syn_score ≤ 2 ∧ 0 ≤ e.logic_score ∧ e.logic_score ≤ 2)) :
    (∃ a, (regradeSession (some e) s).question_attempts.find? isCodingAttempt =
        some a ∧
      a.marks_obtained = e.attempt_score + e.syn_score + e.logic_score ∧
      a.coding_breakdown =
        some { attempt_score := e.attempt_score,
               syn_score := e.syn_score, logic_score := e.logic_score,
               explanation := e.explanation }) ∧
    (regradeSession (some e) s).total_score =
      mcqMarks s.question_attempts +
        (e.attempt_score + e.syn_score + e.logic_score) := by
  have happ := regradeSession_applied pre c code e s hatts hpre hc hcode hne
  have hpreN : ∀ a ∈ pre, isCodingAttempt a = false :=
    fun a ha => not_coding_of_isInt a (hpre a ha)
  have hcA : isCodingAttempt c = true := by simp [isCodingAttempt, hc]
  have hAeC : isCodingAttempt (applyEvaluation e c) = true := by
    unfold isCodingAttempt
    rw [applyEvaluation_question_id]
    simpa [isCodingAttempt] using hcA
  have hmcqS : mcqMarks s.question_attempts = mcqMarks pre := by
    rw [hatts, mcqMarks_append, mcqMarks_single_of_not_int c (not_isInt_of_coding c hcA)]
    omega
  refine ⟨⟨applyEvaluation e c, ?_, rfl, rfl⟩, ?_⟩
  · rw [happ]
    exact find?_coding_append_single pre _ hpreN hAeC
  · rw [happ, hmcqS]

/-- Witness for C5 at the fixture session: attempt_score 5 is out of bounds,
yet the re-grade writes coding marks 5 and total 8. -/
theorem c5_out_of_bounds_applied_witness :
    (¬ ((0 : Int) ≤ 5 ∧ (5 : Int) ≤ 1 ∧ (0 : Int) ≤ 0 ∧ (0 : Int) ≤ 2 ∧
        (0 : Int) ≤ 0 ∧ (0 : Int) ≤ 2)) ∧
    firstCodingMarks (regradeSession
      (some { attempt_score := 5, syn_score := 0,
              logic_score := 0, explanation := "exceeds rubric" })
      fixtureSubmitted).question_attempts = 5 ∧
    (regradeSession
      (some { attempt_score := 5, syn_score := 0, logic_score := 0,
              explanation := "exceeds rubric" })
      fixtureSubmitted).total_score = 8 := by
  have h := c5_out_of_bounds_applied fixturePre fixtureCodingAtt "print(1)"
      { attempt_score := 5, syn_score := 0, logic_score := 0,
        explanation := "exceeds rubric" }
      fixtureSubmitted (by decide) (by decide) rfl rfl (by decide) (by norm_num)
  refine ⟨by norm_num, ?_, ?_⟩
  · rcases h.1 with ⟨a, hfind, hmarks, _⟩
    simp only [firstCodingMarks, hfind]
    rw [hmarks]
    decide
  · have hm : mcqMarks fixtureSubmitted.question_attempts = 3 := by decide
    rw [h.2, hm]
    decide

/-- C6 counterexample: with the configured duration at its default of 60
minutes, the dashboard start button still creates a session whose end_time is
start_time plus 30 minutes, so not every new TestSession is created with the
configured contest duration. -/
theorem c6_counterexample :
    (dashboardStartSession "s1" "p1" 0).end_time = 1800 ∧
    (dashboardStartSession "s1" "p1" 0).end_time ≠
      (dashboardStartSession "s1" "p1" 0).start_time +
        60 * getContestDuration none := by
  decide

/-- C6 (amended): sessions created by start_test get end_time equal to
start_time plus the configured contest duration with default 60 minutes, read
from settings at creation time; sessions created by the dashboard start
button are hardcoded to 30 minutes and by the registration flow to 40
minutes, ignoring the configured setting. -/
theorem c6_session_durations (settings : Option Int) (sid psid : String) (now : Int) :
    (startTestSession settings sid psid now).end_time =
      (startTestSession settings sid psid now).start_time +
        60 * getContestDuration settings ∧
    getContestDuration none = 60 ∧
    (dashboardStartSession sid psid now).end_time =
      (dashboardStartSession sid psid now).start_time + 60 * 30 ∧
    (registerSession sid psid now).end_time =
      (registerSession sid psid now).start_time + 60 * 40 :=
  ⟨rfl, rfl, rfl, rfl⟩

/-- C10: an MCQ with no saved answer is graded with student_answer null,
is_correct false and marks 0 — a missing answer never equals the correct
answer — and a submission with an empty answer map still succeeds against an
active session, with total_score 0. -/
theorem c10_unanswered_mcq (mcqs : List MCQ) (coding : List CodingQ)
    (answers : List (String × String)) (i : Nat) (hi : i < mcqs.length)
    (hnone : lookupAnswer answers ("mcq_" ++ toString i) = none)
    (store : List TestSession) (sid : String) (now : Int)
    (hact : 0 < store.countP (activeFor sid)) :
    (∀ (hj : i < (submitAttempts mcqs coding answers).length),
      ((submitAttempts mcqs coding answers).get ⟨i, hj⟩).student_answer = none ∧
      ((submitAttempts mcqs coding answers).get ⟨i, hj⟩).is_correct = some false ∧
      ((submitAttempts mcqs coding answers).get ⟨i, hj⟩).marks_obtained = 0) ∧
    (submit_test store sid mcqs coding [] now).2 = some 0 := by
  constructor
  · intro hj
    have hg := submitAttempts_get_mcq mcqs coding answers i hi hj
    rw [hg]
    refine ⟨?_, ?_, ?_⟩ <;> simp [mcqAttempt, hnone]
  · have h1 := mongoUpdateOne_matched (activeFor sid)
      (submitUpdate now (submitScore mcqs [])
        (submitAttempts mcqs coding []) []) store hact
    have h0 : submitScore mcqs [] = 0 := by
      apply List.sum_eq_zero
      intro x hx
      rcases List.mem_map.1 hx with ⟨p, _, rfl⟩
      simp [mcqAttempt, lookupAnswer]
    rw [h0] at h1
    simp [submit_test, h0, h1]

/-- Witness for C10: the first fixture MCQ is unanswered in a map that only
saves code, and an empty-map submission against the fixture store succeeds
with score 0. -/
theorem c10_unanswered_mcq_witness :
    ((0 : Nat) < fixtureMcqs.length) ∧
    (lookupAnswer [("coding", "x")] ("mcq_" ++ toString 0) = none) ∧
    ((0 : Nat) < [fixtureActive].countP (activeFor "s1")) ∧
    (∃ (hj : (0 : Nat) <
        (submitAttempts fixtureMcqs [fixtureCodingQ] [("coding", "x")]).length),
      ((submitAttempts fixtureMcqs [fixtureCodingQ]
          [("coding", "x")]).get ⟨0, hj⟩).student_answer = none ∧
      ((submitAttempts fixtureMcqs [fixtureCodingQ]
          [("coding", "x")]).get ⟨0, hj⟩).is_correct = some false ∧
      ((submitAttempts fixtureMcqs [fixtureCodingQ]
          [("coding", "x")]).get ⟨0, hj⟩).marks_obtained = 0) ∧
    (submit_test [fixtureActive] "s1" fixtureMcqs [fixtureCodingQ] [] 900).2 =
      some 0 := by
  have h := c10_unanswered_mcq fixtureMcqs [fixtureCodingQ] [("coding", "x")] 0
    (by decide) (by decide) [fixtureActive] "s1" 900 (by decide)
  exact ⟨by decide, by decide, by decide, ⟨by decide, h.1 (by decide)⟩, h.2⟩

theorem submit_test_fst (store : List TestSession) (sid : String) (mcqs : List MCQ)
    (coding : List CodingQ) (answers : List (String × String)) (now : Int) :
    (submit_test store sid mcqs coding answers now).1 =
      (mongoUpdateOne (activeFor sid)
        (submitUpdate now (submitScore mcqs answers)
          (submitAttempts mcqs coding answers) answers) store).1 := rfl

/-- C9 counterexample: a session created by the dashboard button has stored
end_time 1800; observed at time 2000 — after the stored end_time has passed —
under the default configured duration of 60 minutes, the store is unchanged
and the session is still not completed, because show_test checks start_time
plus the configured duration instead of the stored end_time. -/
theorem c9_counterexample :
    (dashboardStartSession "s2" "p2" 0).end_time = 1800 ∧
    ((1800 : Int) ≤ 2000) ∧
    observeTest none 2000 [dashboardStartSession "s2" "p2" 0] "s2"
        fixtureMcqs [fixtureCodingQ] fixtureAnswers =
      [dashboardStartSession "s2" "p2" 0] ∧
    (dashboardStartSession "s2" "p2" 0).is_completed = false := by
  decide

/-- C9 (amended): for every store holding exactly one active session of the
student, once the observation time reaches start_time plus the currently
configured contest duration — the deadline show_test actually enforces in
place of the stored end_time — the next observation completes the session
with total_score computed from the saved answers, and afterwards every read
of the student's sessions yields is_completed true. -/
theorem c9_expiry_completes (settings : Option Int) (now : Int)
    (store : List TestSession) (sid : String) (mcqs : List MCQ)
    (coding : List CodingQ) (answers : List (String × String))
    (h1 : store.countP (activeFor sid) = 1)
    (h2 : ∀ s ∈ store, activeFor sid s = true → effectiveEnd settings s ≤ now) :
    (∀ t ∈ observeTest settings now store sid mcqs coding answers,
      t.student_id = sid → t.is_completed = true) ∧
    (∃ t ∈ observeTest settings now store sid mcqs coding answers,
      t.student_id = sid ∧ t.is_completed = true ∧
      t.total_score = submitScore mcqs answers ∧
      t.question_attempts = submitAttempts mcqs coding answers ∧
      t.end_time = now) := by
  have hpos : 0 < store.countP (activeFor sid) := by omega
  obtain ⟨s0, hs0⟩ : ∃ s0, store.find? (activeFor sid) = some s0 := by
    cases hf : store.find? (activeFor sid) with
    | some s0 => exact ⟨s0, rfl⟩
    | none =>
      exfalso
      obtain ⟨a, ha, hpa⟩ := by simpa using List.countP_pos_iff.1 hpos
      have hall := List.find?_eq_none.1 hf a ha
      simp [hpa] at hall
  have hps0 : activeFor sid s0 = true := List.find?_some hs0
  have hmem0 : s0 ∈ store := List.mem_of_find?_eq_some hs0
  have hcond : effectiveEnd settings s0 - now ≤ 0 := by
    have := h2 s0 hmem0 hps0
    omega
  have hobs : observeTest settings now store sid mcqs coding answers =
      (submit_test store sid mcqs coding answers now).1 := by
    unfold observeTest
    rw [hs0]
    show (if effectiveEnd settings s0 - now ≤ 0 then
        (submit_test store sid mcqs coding answers now).1 else store) =
      (submit_test store sid mcqs coding answers now).1
    rw [if_pos hcond]
  rw [hobs, submit_test_fst]
  constructor
  · intro t ht hsid
    have h0 := mongoUpdateOne_countP_after (activeFor sid)
      (submitUpdate now (submitScore mcqs answers)
        (submitAttempts mcqs coding answers) answers) store
      (fun s => activeFor_submitUpdate_false sid now _ _ _ s) h1
    have hfalse := List.countP_eq_zero.1 h0 t ht
    simp [activeFor, hsid] at hfalse
    exact hfalse
  · obtain ⟨a, ha, hpa, hmemu⟩ := mongoUpdateOne_mem_updated (activeFor sid)
      (submitUpdate now (submitScore mcqs answers)
        (submitAttempts mcqs coding answers) answers) store hpos
    refine ⟨submitUpdate now (submitScore mcqs answers)
      (submitAttempts mcqs coding answers) answers a, hmemu, ?_, rfl, rfl, rfl, rfl⟩
    have hsid : a.student_id = sid := by
      simp [activeFor] at hpa
      exact hpa.1
    simpa [submitUpdate] using hsid

/-- Witness for C9: the fixture active session observed at time 4000, past
its effective deadline 3600 under default settings. -/
theorem c9_expiry_completes_witness :
    ([fixtureActive].countP (activeFor "s1") = 1) ∧
    (∀ s ∈ [fixtureActive], activeFor "s1" s = true →
      effectiveEnd none s ≤ 4000) ∧
    ((∀ t ∈ observeTest none 4000 [fixtureActive] "s1" fixtureMcqs
        [fixtureCodingQ] fixtureAnswers,
      t.student_id = "s1" → t.is_completed = true) ∧
    (∃ t ∈ observeTest none 4000 [fixtureActive] "s1" fixtureMcqs
        [fixtureCodingQ] fixtureAnswers,
      t.student_id = "s1" ∧ t.is_completed = true ∧
      t.total_score = submitScore fixtureMcqs fixtureAnswers ∧
      t.question_attempts = submitAttempts fixtureMcqs [fixtureCodingQ]
        fixtureAnswers ∧
      t.end_time = 4000)) :=
  ⟨by decide, by decide,
   c9_expiry_completes none 4000 [fixtureActive] "s1" fixtureMcqs
     [fixtureCodingQ] fixtureAnswers (by decide) (by decide)⟩

theorem leastUsedFrom_mem (u : String → Nat) :
    ∀ (l : List QSet) (b : QSet) (bu : Nat),
      leastUsedFrom u b bu l = b ∨ leastUsedFrom u b bu l ∈ l := by
  intro l
  induction l with
  | nil => intro b bu; left; rfl
  | cons q rest ih =>
    intro b bu
    unfold leastUsedFrom
    by_cases h : u q.id < bu
    · rw [if_pos h]
      rcases ih q (u q.id) with h1 | h1
      · right; rw [h1]; exact List.mem_cons_self q rest
      · right; exact List.mem_cons_of_mem q h1
    · rw [if_neg h]
      rcases ih b bu with h1 | h1
      · left; exact h1
      · right; exact List.mem_cons_of_mem q h1

theorem leastUsedFrom_le (u : String → Nat) :
    ∀ (l : List QSet) (b : QSet) (bu : Nat), u b.id ≤ bu →
      u (leastUsedFrom u b bu l).id ≤ bu ∧
      ∀ q ∈ l, u (leastUsedFrom u b bu l).id ≤ u q.id := by
  intro l
  induction l with
  | nil => intro b bu hb; exact ⟨hb, by simp⟩
  | cons q rest ih =>
    intro b bu hb
    unfold leastUsedFrom
    by_cases h : u q.id < bu
    · rw [if_pos h]
      obtain ⟨h1, h2⟩ := ih q (u q.id) (Nat.le_refl _)
      refine ⟨Nat.le_trans h1 (Nat.le_of_lt h), ?_⟩
      intro x hx
      rcases List.mem_cons.1 hx with rfl | hx
      · exact h1
      · exact h2 x hx
    · rw [if_neg h]
      obtain ⟨h1, h2⟩ := ih b bu hb
      refine ⟨h1, ?_⟩
      intro x hx
      rcases List.mem_cons.1 hx with rfl | hx
      · exact Nat.le_trans h1 (Nat.not_lt.1 h)
      · exact h2 x hx

/-- C7: question-set assignment returns a set whose id appears in no session
whenever such a set exists; when every set has been used at least once it
returns a set of globally minimum usage; and it fails — returns none —
exactly when the MCQ question store is empty. -/
theorem c7_assignment_policy (sets : List QSet) (sessions : List (Option String)) :
    (get_unused_problem_set sets sessions = none ↔ sets = []) ∧
    ((∃ q ∈ sets, usageCount sessions q.id = 0) →
      ∃ q, get_unused_problem_set sets sessions = some q ∧ q ∈ sets ∧
        usageCount sessions q.id = 0) ∧
    ((sets ≠ [] ∧ ∀ q ∈ sets, 1 ≤ usageCount sessions q.id) →
      ∃ q, get_unused_problem_set sets sessions = some q ∧ q ∈ sets ∧
        ∀ r ∈ sets, usageCount sessions q.id ≤ usageCount sessions r.id) := by
  cases hsets : sets with
  | nil =>
    refine ⟨by simp [get_unused_problem_set], ?_, ?_⟩
    · rintro ⟨q, hq, _⟩
      simp at hq
    · rintro ⟨hne, _⟩
      simp at hne
  | cons q0 rest =>
    have hred : get_unused_problem_set (q0 :: rest) sessions =
        match (q0 :: rest).find? (fun q => !(usedSetIds sessions).contains q.id) with
        | some q => some q
        | none => some (leastUsedFrom (usageCount sessions) q0
            (usageCount sessions q0.id) rest) := rfl
    refine ⟨?_, ?_, ?_⟩
    · constructor
      · intro hnone
        exfalso
        rw [hred] at hnone
        cases hf : (q0 :: rest).find?
            (fun q => !(usedSetIds sessions).contains q.id) with
        | some qf => rw [hf] at hnone; simp at hnone
        | none => rw [hf] at hnone; simp at hnone
      · intro h
        simp at h
    · rintro ⟨q, hq, hq0⟩
      cases hf : (q0 :: rest).find?
          (fun q => !(usedSetIds sessions).contains q.id) with
      | some qf =>
        have hpf := List.find?_some hf
        have hmf := List.mem_of_find?_eq_some hf
        refine ⟨qf, ?_, hmf, ?_⟩
        · rw [hred, hf]
        · have hnotmem : qf.id ∉ usedSetIds sessions := by
            intro hmem
            have hc : (usedSetIds sessions).contains qf.id = true :=
              List.elem_iff.2 hmem
            rw [hc] at hpf
            simp at hpf
          exact List.count_eq_zero.2 hnotmem
      | none =>
        exfalso
        have hall := List.find?_eq_none.1 hf q hq
        have hmem : q.id ∈ usedSetIds sessions := by
          rw [← List.elem_iff]
          simpa using hall
        have hpos := List.count_pos_iff.2 hmem
        unfold usageCount at hq0
        omega
    · rintro ⟨-, hall⟩
      have hf : (q0 :: rest).find?
          (fun q => !(usedSetIds sessions).contains q.id) = none := by
        rw [List.find?_eq_none]
        intro q hq
        have h1 := hall q hq
        have hmem : q.id ∈ usedSetIds sessions := by
          apply List.count_pos_iff.1
          unfold usageCount at h1
          omega
        have hc : (usedSetIds sessions).contains q.id = true :=
          List.elem_iff.2 hmem
        simp [hc]
        exact hmem
      have hmem := leastUsedFrom_mem (usageCount sessions) rest q0
        (usageCount sessions q0.id)
      have hle := leastUsedFrom_le (usageCount sessions) rest q0
        (usageCount sessions q0.id) (Nat.le_refl _)
      refine ⟨leastUsedFrom (usageCount sessions) q0 (usageCount sessions q0.id) rest,
        ?_, ?_, ?_⟩
      · rw [hred, hf]
      · rcases hmem with h1 | h1
        · rw [h1]; exact List.mem_cons_self q0 rest
        · exact List.mem_cons_of_mem q0 h1
      · intro r hr
        rcases List.mem_cons.1 hr with rfl | hr
        · exact hle.1
        · exact hle.2 r hr

/-- Witness for C7: two sets both used at least once, with usage counts 1 and
2, where assignment returns the set of minimum usage. -/
theorem c7_assignment_policy_witness :
    (([ { id := "a", generated_questions := [] },
        { id := "b", generated_questions := [] } ] : List QSet) ≠ [] ∧
      ∀ q ∈ ([ { id := "a", generated_questions := [] },
        { id := "b", generated_questions := [] } ] : List QSet),
        1 ≤ usageCount [some "a", some "b", some "b"] q.id) ∧
    ∃ q, get_unused_problem_set
        [ { id := "a", generated_questions := [] },
          { id := "b", generated_questions := [] } ]
        [some "a", some "b", some "b"] = some q ∧
      q ∈ ([ { id := "a", generated_questions := [] },
        { id := "b", generated_questions := [] } ] : List QSet) ∧
      ∀ r ∈ ([ { id := "a", generated_questions := [] },
        { id := "b", generated_questions := [] } ] : List QSet),
        usageCount [some "a", some "b", some "b"] q.id ≤
          usageCount [some "a", some "b", some "b"] r.id :=
  ⟨⟨by decide, by decide⟩,
   (c7_assignment_policy
      [ { id := "a", generated_questions := [] },
        { id := "b", generated_questions := [] } ]
      [some "a", some "b", some "b"]).2.2 ⟨by decide, by decide⟩⟩
